import Mathlib

/-!
RCWT (Raw Captions With Time) demuxer: a shallow embedding of
libavformat/rcwtdec.c together with proofs about its header validation,
its cluster-streaming loop and its probe function.

The avio byte-stream layer is modelled by an explicit state: the whole
input as a list of byte values, a cursor, and the end-of-file flag that
the avio layer sets once a read attempt runs past the end of the data.
Reads past the end return zero bytes, exactly as avio_r8 does.
-/

namespace RCWT

/-- State of the byte-stream reader: the underlying data, the cursor, and
the end-of-file flag that is set once a read attempt hits the end. -/
structure AvioState where
  data : List Nat
  pos  : Nat
  eof  : Bool
deriving Repr, DecidableEq

/-- Read one byte; at end-of-stream return 0 and set the eof flag
(the behaviour of avio_r8). -/
def avio_r8 (s : AvioState) : Nat × AvioState :=
  if h : s.pos < s.data.length then
    (s.data.get ⟨s.pos, h⟩, { s with pos := s.pos + 1 })
  else
    (0, { s with eof := true })

/-- Read k bytes little-endian, least significant byte first, composing
avio_r8 as avio_rl16/avio_rl32/avio_rl64 do. -/
def readLE : Nat → AvioState → Nat × AvioState
  | 0, s => (0, s)
  | k+1, s =>
    let r := avio_r8 s
    let rest := readLE k r.2
    (r.1 + rest.1 * 256, rest.2)

/-- Little-endian 16-bit read (avio_rl16). -/
def avio_rl16 (s : AvioState) : Nat × AvioState := readLE 2 s

/-- Little-endian 64-bit read (avio_rl64). -/
def avio_rl64 (s : AvioState) : Nat × AvioState := readLE 8 s

/-- Block read of n bytes (avio_read): returns the bytes actually read;
a short read returns the remaining bytes and sets the eof flag. -/
def avio_read (s : AvioState) (n : Nat) : List Nat × AvioState :=
  if s.pos + n ≤ s.data.length then
    ((s.data.drop s.pos).take n, { s with pos := s.pos + n })
  else
    ((s.data.drop s.pos).take n, { s with pos := s.data.length, eof := true })

/-- End-of-file test (avio_feof): reports the sticky eof flag. -/
def avio_feof (s : AvioState) : Bool := s.eof

/-- Current cursor position (avio_tell). -/
def avio_tell (s : AvioState) : Nat := s.pos

/-- Big-endian 16-bit view of two bytes of a buffer (AV_RB16), with the
zero padding the zero-initialized header buffer provides. -/
def AV_RB16 (l : List Nat) (i : Nat) : Nat := l.getD i 0 * 256 + l.getD (i+1) 0

/-- The signed 64-bit value obtained by reinterpreting an unsigned 64-bit
value, as the assignment of avio_rl64 to the int64_t cluster_pts does. -/
def toSigned64 (n : Nat) : Int :=
  if n < 2 ^ 63 then (n : Int) else (n : Int) - 2 ^ 64

/-- A packet as inserted into the subtitles queue: the cluster payload,
the pts set on the packet, and the stream position recorded on it. -/
structure Packet where
  payload : List Nat
  pts : Int
  pos : Nat
deriving Repr, DecidableEq

/-- The distinct failure exits of rcwt_read_header. The C code returns
AVERROR_INVALIDDATA from each, but every branch logs its own distinct
diagnostic, so the branches are observably distinct. -/
inductive DemuxError where
  | notThisFormat
  | unsupportedWriter
  | unsupportedVersion
  | unsupportedWriterBuild
  | truncatedCluster (expected : Nat) (actual : Nat) (pos : Nat)
deriving Repr, DecidableEq

/-- Codec type declared on the stream. -/
inductive CodecType where
  | subtitle
deriving Repr, DecidableEq

/-- Codec id declared on the stream. -/
inductive CodecID where
  | eia608
deriving Repr, DecidableEq

/-- The observable attributes rcwt_read_header sets on the stream it
creates: subtitle type, EIA-608 codec, time base 1/1000. -/
structure StreamDesc where
  codec_type : CodecType
  codec_id : CodecID
  time_base_num : Nat
  time_base_den : Nat
deriving Repr, DecidableEq

/-- The one stream descriptor rcwt_read_header creates. -/
def rcwtStream : StreamDesc := ⟨.subtitle, .eia608, 1, 1000⟩

/-- Termination measure for the demux loop: bytes left before the cursor
reaches the end, plus one extra step while the eof flag is still unset. -/
def avioMeasure (s : AvioState) : Nat :=
  s.data.length - s.pos + (if s.eof then 0 else 1)

theorem avio_r8_measure_le (s : AvioState) :
    avioMeasure (avio_r8 s).2 ≤ avioMeasure s := by
  rcases s with ⟨d, p, e⟩
  cases e <;> by_cases h : p < d.length <;>
    simp [avio_r8, avioMeasure, h] <;> omega

theorem avio_r8_measure_lt (s : AvioState) (h : s.eof = false) :
    avioMeasure (avio_r8 s).2 < avioMeasure s := by
  rcases s with ⟨d, p, e⟩
  subst h
  by_cases h : p < d.length
  · simp [avio_r8, avioMeasure, h]
    omega
  · simp [avio_r8, avioMeasure, h]

theorem readLE_measure_le (k : Nat) (s : AvioState) :
    avioMeasure (readLE k s).2 ≤ avioMeasure s := by
  induction k generalizing s with
  | zero => simp [readLE]
  | succ k ih =>
    simp only [readLE]
    exact le_trans (ih (avio_r8 s).2) (avio_r8_measure_le s)

theorem readLE_measure_lt (k : Nat) (s : AvioState) (hk : 0 < k)
    (h : s.eof = false) : avioMeasure (readLE k s).2 < avioMeasure s := by
  cases k with
  | zero => omega
  | succ k =>
    simp only [readLE]
    exact lt_of_le_of_lt (readLE_measure_le k (avio_r8 s).2)
      (avio_r8_measure_lt s h)

theorem avio_read_measure_le (s : AvioState) (n : Nat) :
    avioMeasure (avio_read s n).2 ≤ avioMeasure s := by
  rcases s with ⟨d, p, e⟩
  cases e <;> by_cases h : p + n ≤ d.length <;>
    simp [avio_read, avioMeasure, h] <;> omega

/-- One traversal of the demux loop body of rcwt_read_header, recursing
on an explicit fuel bound: while not at eof, read the little-endian
64-bit cluster_pts and 16-bit cluster_nb_blocks; skip the cluster when
the block count is 0; otherwise read cluster_nb_blocks * 3 payload
bytes, failing with the truncated-cluster error on a short read, and
insert a packet carrying the payload, the pts and the position after the
payload. Returns the queue contents, the number of payload buffer
allocations performed, and the error if any. Every loop iteration
strictly decreases avioMeasure, so any fuel of at least avioMeasure
computes the loop exactly (demux_loop_fuel_congr, demux_loop_unfold). -/
def demux_loop_fuel : Nat → AvioState → List Packet → Nat →
    List Packet × Nat × Option DemuxError
  | 0, _, acc, allocs => (acc, allocs, none)
  | fuel+1, s, acc, allocs =>
    if avio_feof s then (acc, allocs, none)
    else
      let p := avio_rl64 s
      let nb := avio_rl16 p.2
      if nb.1 = 0 then demux_loop_fuel fuel nb.2 acc allocs
      else
        let size := nb.1 * 3
        let rd := avio_read nb.2 size
        if rd.1.length ≠ size then
          (acc, allocs + 1, some (.truncatedCluster size rd.1.length (avio_tell rd.2)))
        else
          demux_loop_fuel fuel rd.2
            (acc ++ [⟨rd.1, toSigned64 p.1, avio_tell rd.2⟩]) (allocs + 1)

/-- The demux loop of rcwt_read_header, run with enough fuel to reach
its genuine termination point. -/
def demux_loop (s : AvioState) (acc : List Packet) (allocs : Nat) :
    List Packet × Nat × Option DemuxError :=
  demux_loop_fuel (avioMeasure s) s acc allocs

theorem eof_of_measure_zero (s : AvioState) (h : avioMeasure s = 0) :
    s.eof = true := by
  unfold avioMeasure at h
  cases hb : s.eof
  · rw [hb] at h
    simp at h
  · rfl

/-- Any two fuel values at least avioMeasure compute the same result:
the loop reaches eof (or an error) before the fuel can run out. -/
theorem demux_loop_fuel_congr (f1 : Nat) : ∀ (f2 : Nat) (s : AvioState)
    (acc : List Packet) (al : Nat), avioMeasure s ≤ f1 → avioMeasure s ≤ f2 →
    demux_loop_fuel f1 s acc al = demux_loop_fuel f2 s acc al := by
  induction f1 with
  | zero =>
    intro f2 s acc al h1 h2
    have he : avio_feof s = true := eof_of_measure_zero s (by omega)
    cases f2 with
    | zero => rfl
    | succ g2 =>
      show (acc, al, none) = demux_loop_fuel (g2 + 1) s acc al
      simp only [demux_loop_fuel]
      rw [if_pos he]
  | succ g1 ih =>
    intro f2 s acc al h1 h2
    cases f2 with
    | zero =>
      have he : avio_feof s = true := eof_of_measure_zero s (by omega)
      show demux_loop_fuel (g1 + 1) s acc al = (acc, al, none)
      simp only [demux_loop_fuel]
      rw [if_pos he]
    | succ g2 =>
      simp only [demux_loop_fuel]
      by_cases he : avio_feof s = true
      · rw [if_pos he, if_pos he]
      · rw [if_neg he, if_neg he]
        have hef : s.eof = false := by
          cases hb : s.eof
          · rfl
          · exact absurd hb he
        have hlt : avioMeasure (avio_rl16 (avio_rl64 s).2).2 < avioMeasure s :=
          lt_of_le_of_lt (readLE_measure_le 2 (avio_rl64 s).2)
            (readLE_measure_lt 8 s (by norm_num) hef)
        by_cases hz : (avio_rl16 (avio_rl64 s).2).1 = 0
        · rw [if_pos hz, if_pos hz]
          exact ih g2 _ acc al (by omega) (by omega)
        · rw [if_neg hz, if_neg hz]
          have hrd : avioMeasure (avio_read (avio_rl16 (avio_rl64 s).2).2
              ((avio_rl16 (avio_rl64 s).2).1 * 3)).2 < avioMeasure s :=
            lt_of_le_of_lt (avio_read_measure_le _ _) hlt
          by_cases hsz : (avio_read (avio_rl16 (avio_rl64 s).2).2
              ((avio_rl16 (avio_rl64 s).2).1 * 3)).1.length =
              (avio_rl16 (avio_rl64 s).2).1 * 3
          · rw [if_neg (by omega), if_neg (by omega)]
            exact ih g2 _ _ _ (by omega) (by omega)
          · rw [if_pos hsz, if_pos hsz]

/-- The demux loop satisfies exactly the recurrence of the while loop in
rcwt_read_header. -/
theorem demux_loop_unfold (s : AvioState) (acc : List Packet) (al : Nat) :
    demux_loop s acc al =
      if avio_feof s then (acc, al, none)
      else
        let p := avio_rl64 s
        let nb := avio_rl16 p.2
        if nb.1 = 0 then demux_loop nb.2 acc al
        else
          let size := nb.1 * 3
          let rd := avio_read nb.2 size
          if rd.1.length ≠ size then
            (acc, al + 1, some (.truncatedCluster size rd.1.length (avio_tell rd.2)))
          else
            demux_loop rd.2 (acc ++ [⟨rd.1, toSigned64 p.1, avio_tell rd.2⟩]) (al + 1) := by
  rw [demux_loop]
  cases hm : avioMeasure s with
  | zero =>
    have he : avio_feof s = true := eof_of_measure_zero s hm
    rw [if_pos he]
    rfl
  | succ g =>
    simp only [demux_loop_fuel]
    by_cases he : avio_feof s = true
    · rw [if_pos he, if_pos he]
    · rw [if_neg he, if_neg he]
      have hef : s.eof = false := by
        cases hb : s.eof
        · rfl
        · exact absurd hb he
      have hlt : avioMeasure (avio_rl16 (avio_rl64 s).2).2 < avioMeasure s :=
        lt_of_le_of_lt (readLE_measure_le 2 (avio_rl64 s).2)
          (readLE_measure_lt 8 s (by norm_num) hef)
      by_cases hz : (avio_rl16 (avio_rl64 s).2).1 = 0
      · rw [if_pos hz, if_pos hz]
        rw [demux_loop]
        exact demux_loop_fuel_congr g _ _ acc al (by omega) (le_refl _)
      · rw [if_neg hz, if_neg hz]
        have hrd : avioMeasure (avio_read (avio_rl16 (avio_rl64 s).2).2
            ((avio_rl16 (avio_rl64 s).2).1 * 3)).2 < avioMeasure s :=
          lt_of_le_of_lt (avio_read_measure_le _ _) hlt
        by_cases hsz : (avio_read (avio_rl16 (avio_rl64 s).2).2
            ((avio_rl16 (avio_rl64 s).2).1 * 3)).1.length =
            (avio_rl16 (avio_rl64 s).2).1 * 3
        · rw [if_neg (by omega), if_neg (by omega)]
          rw [demux_loop]
          exact demux_loop_fuel_congr g _ _ _ _ (by omega) (le_refl _)
        · rw [if_pos hsz, if_pos hsz]

/-- The four sequential header checks of rcwt_read_header, applied to the
zero-initialized 11-byte header buffer and the byte count avio_read
returned. Each failing check exits with its own error. -/
def check_header (hdr : List Nat) (nb : Nat) : Option DemuxError :=
  if nb ≠ 11 ∨ AV_RB16 hdr 0 ≠ 0xCCCC ∨ hdr.getD 2 0 ≠ 0xED then
    some .notThisFormat
  else if (hdr.getD 3 0 ≠ 0xCC ∧ hdr.getD 3 0 ≠ 0xFF) ∨ hdr.getD 4 0 ≠ 0x00 then
    some .unsupportedWriter
  else if AV_RB16 hdr 6 ≠ 0x0001 then
    some .unsupportedVersion
  else if hdr.getD 3 0 = 0xFF ∧ hdr.getD 5 0 ≠ 0x60 then
    some .unsupportedWriterBuild
  else
    none

/-- The header phase of rcwt_read_header: read 11 bytes from the start of
the input and run the four checks. Returns the reader state after the
read together with the validation verdict. -/
def header_phase (data : List Nat) : AvioState × Option DemuxError :=
  let rd := avio_read ⟨data, 0, false⟩ 11
  (rd.2, check_header rd.1 rd.1.length)

/-- The observable outcome of rcwt_read_header: the streams created, the
packets in the subtitles queue at return, the number of cluster payload
allocations, and the error returned if any. -/
structure Outcome where
  streams : List StreamDesc
  packets : List Packet
  allocs  : Nat
  err     : Option DemuxError
deriving Repr, DecidableEq

/-- Whole rcwt_read_header: validate the header; on failure return its
error with no stream created and no packet inserted; on success create
the single subtitle stream and run the demux loop. -/
def rcwt_read_header (data : List Nat) : Outcome :=
  let hp := header_phase data
  match hp.2 with
  | some e => ⟨[], [], 0, some e⟩
  | none =>
    let r := demux_loop hp.1 [] 0
    ⟨[rcwtStream], r.1, r.2.1, r.2.2⟩

/-- The probe function rcwt_probe: score 50 when the probe buffer holds
more than 11 bytes and starts with the magic bytes, otherwise 0. -/
def rcwt_probe (buf : List Nat) : Nat :=
  if buf.length > 11 ∧ AV_RB16 buf 0 = 0xCCCC ∧ buf.getD 2 0 = 0xED then 50 else 0

/-! Little-endian encoding of values into byte lists, used to build input
streams for the round-trip statements. -/

/-- Value of a byte list read little-endian, least significant byte first,
mirroring how readLE combines the bytes it reads. -/
def leVal : List Nat → Nat
  | [] => 0
  | b :: bs => b + leVal bs * 256

/-- Little-endian encoding of a value in k bytes. -/
def leBytes : Nat → Nat → List Nat
  | 0, _ => []
  | k+1, n => n % 256 :: leBytes k (n / 256)

@[simp] theorem length_leBytes (k n : Nat) : (leBytes k n).length = k := by
  induction k generalizing n with
  | zero => rfl
  | succ k ih => simp [leBytes, ih]

theorem leBytes_mem_lt (k n : Nat) : ∀ b ∈ leBytes k n, b < 256 := by
  induction k generalizing n with
  | zero => simp [leBytes]
  | succ k ih =>
    intro b hb
    rcases List.mem_cons.1 hb with h | h
    · subst h; exact Nat.mod_lt _ (by norm_num)
    · exact ih (n / 256) b h

theorem leVal_leBytes (k n : Nat) : leVal (leBytes k n) = n % 256 ^ k := by
  induction k generalizing n with
  | zero => simp [leBytes, leVal, Nat.mod_one]
  | succ k ih =>
    simp only [leBytes, leVal, ih]
    rw [pow_succ', Nat.mod_mul]
    ring

/-! Behaviour of the avio reads used by the demux loop. -/

theorem avio_r8_data (s : AvioState) : (avio_r8 s).2.data = s.data := by
  unfold avio_r8
  split <;> rfl

/-- An in-bounds little-endian read returns the value of the next k bytes
and advances the cursor by k, leaving the eof flag alone. -/
theorem readLE_eq (k : Nat) (s : AvioState) (h : s.pos + k ≤ s.data.length) :
    readLE k s = (leVal ((s.data.drop s.pos).take k), ⟨s.data, s.pos + k, s.eof⟩) := by
  induction k generalizing s with
  | zero => simp [readLE, leVal]
  | succ k ih =>
    rcases s with ⟨d, p, e⟩
    simp only at h
    have hlt : p < d.length := by omega
    have h8 : avio_r8 ⟨d, p, e⟩ = (d[p], ⟨d, p + 1, e⟩) := by
      simp [avio_r8, hlt]
    have hrec := ih ⟨d, p + 1, e⟩ (by simp only; omega)
    simp only [readLE, h8, hrec]
    have hpk : p + 1 + k = p + (k + 1) := by omega
    rw [List.drop_eq_getElem_cons hlt, List.take_succ_cons, hpk]
    simp [leVal]

/-- A little-endian read starting at or past the end of the data returns
value 0 and only sets the eof flag. -/
theorem readLE_at_end (k : Nat) (s : AvioState) (h : s.data.length ≤ s.pos)
    (hk : 0 < k) : readLE k s = (0, { s with eof := true }) := by
  induction k generalizing s with
  | zero => omega
  | succ k ih =>
    have h8 : avio_r8 s = (0, { s with eof := true }) := by
      have : ¬ s.pos < s.data.length := by omega
      simp [avio_r8, this]
    rcases Nat.eq_zero_or_pos k with h0 | hpos
    · subst h0
      simp [readLE, h8]
    · have hrec := ih { s with eof := true } h hpos
      simp [readLE, h8, hrec]

/-- The state after a little-endian read: the cursor stops at the end of
the data when fewer than k bytes remain, and the eof flag is set exactly
when the read ran past the end. -/
theorem readLE_state (k : Nat) (s : AvioState) (hp : s.pos ≤ s.data.length) :
    (readLE k s).2 = ⟨s.data, min (s.pos + k) s.data.length,
      s.eof || decide (s.data.length < s.pos + k)⟩ := by
  induction k generalizing s with
  | zero =>
    rcases s with ⟨d, p, e⟩
    simp only at hp
    have h2 : ¬ (d.length < p) := by omega
    simp only [readLE, AvioState.mk.injEq]
    refine ⟨trivial, by omega, by simp [h2]⟩
  | succ k ih =>
    rcases s with ⟨d, p, e⟩
    simp only at hp
    by_cases hlt : p < d.length
    · have h8 : avio_r8 ⟨d, p, e⟩ = (d[p], ⟨d, p + 1, e⟩) := by
        simp [avio_r8, hlt]
      have hrec := ih ⟨d, p + 1, e⟩ (by simp only; omega)
      have hpk : p + 1 + k = p + (k + 1) := by omega
      simp only [readLE, h8, hrec, hpk]
    · have hpe : p = d.length := by omega
      have h8 : avio_r8 ⟨d, p, e⟩ = (0, ⟨d, p, true⟩) := by
        simp [avio_r8, hlt]
      have hrec := ih ⟨d, p, true⟩ (by simp only; omega)
      have h1 : min (p + k) d.length = min (p + (k + 1)) d.length := by omega
      have h2 : d.length < p + (k + 1) := by omega
      simp only [readLE, h8, hrec, h1, h2]
      simp

/-- A little-endian read at or past the end of the data yields value 0. -/
theorem readLE_val_at_end (k : Nat) (s : AvioState) (h : s.data.length ≤ s.pos) :
    (readLE k s).1 = 0 := by
  cases k with
  | zero => rfl
  | succ k => simp [readLE_at_end (k + 1) s h (by omega)]

/-- Any k-byte little-endian read of byte-valued data is below 256 ^ k. -/
theorem readLE_val_lt (k : Nat) (s : AvioState) (hb : ∀ b ∈ s.data, b < 256) :
    (readLE k s).1 < 256 ^ k := by
  induction k generalizing s with
  | zero => simp [readLE]
  | succ k ih =>
    have hbyte : (avio_r8 s).1 < 256 := by
      rcases s with ⟨d, p, e⟩
      by_cases h : p < d.length
      · have hv : (avio_r8 ⟨d, p, e⟩).1 = d[p] := by simp [avio_r8, h]
        rw [hv]
        exact hb _ (List.getElem_mem h)
      · have hv : (avio_r8 ⟨d, p, e⟩).1 = 0 := by simp [avio_r8, h]
        rw [hv]
        norm_num
    have hrest : (readLE k (avio_r8 s).2).1 < 256 ^ k := by
      apply ih
      rw [avio_r8_data]
      exact hb
    simp only [readLE]
    rw [pow_succ']
    omega

/-- An avio_read whose n bytes are all available: it returns them and
advances the cursor by exactly n, leaving the eof flag alone. -/
theorem avio_read_full (s : AvioState) (n : Nat) (h : s.pos + n ≤ s.data.length) :
    avio_read s n = ((s.data.drop s.pos).take n, ⟨s.data, s.pos + n, s.eof⟩) := by
  rcases s with ⟨d, p, e⟩
  simp only at h
  simp [avio_read, h]

/-- A short avio_read: it returns whatever bytes remain, parks the cursor
at the end of the data and sets the eof flag. -/
theorem avio_read_short (s : AvioState) (n : Nat) (h : s.data.length < s.pos + n) :
    avio_read s n = (s.data.drop s.pos, ⟨s.data, s.data.length, true⟩) := by
  rcases s with ⟨d, p, e⟩
  simp only at h
  have h' : ¬ (p + n ≤ d.length) := by omega
  have ht : (d.drop p).take n = d.drop p :=
    List.take_of_length_le (by simp; omega)
  simp [avio_read, h', ht]

/-! Cluster records and their wire encoding, used to build the input
streams of the round-trip statements. -/

/-- Eight-byte little-endian encoding of a signed 64-bit pts: the
two's-complement bit pattern of the value. -/
def pts_bytes (p : Int) : List Nat := leBytes 8 (p % (2 ^ 64)).toNat

/-- An input cluster record: pts, declared block count, payload bytes. -/
structure ClusterRec where
  pts : Int
  block_count : Nat
  payload : List Nat
deriving Repr, DecidableEq

/-- A well-formed non-empty cluster record: the block count is nonzero
and fits the 16-bit field, the payload is exactly block_count blocks of
3 bytes, and the pts fits a signed 64-bit integer. -/
def ClusterRec.valid (r : ClusterRec) : Prop :=
  0 < r.block_count ∧ r.block_count ≤ 65535 ∧
  r.payload.length = r.block_count * 3 ∧
  -(2 ^ 63) ≤ r.pts ∧ r.pts < 2 ^ 63

instance (r : ClusterRec) : Decidable r.valid := by
  unfold ClusterRec.valid
  infer_instance

/-- Wire encoding of one cluster record. -/
def cluster_bytes (r : ClusterRec) : List Nat :=
  pts_bytes r.pts ++ leBytes 2 r.block_count ++ r.payload

/-- Wire encoding of a list of cluster records. -/
def clusters_bytes (rs : List ClusterRec) : List Nat :=
  (rs.map cluster_bytes).flatten

/-- The packets the demux loop produces for a list of cluster records
whose encoding starts at stream position base: each packet carries the
payload and pts of its record, and the position just past its record. -/
def expected_packets : Nat → List ClusterRec → List Packet
  | _, [] => []
  | base, r :: rs =>
    ⟨r.payload, r.pts, base + (cluster_bytes r).length⟩ ::
      expected_packets (base + (cluster_bytes r).length) rs

@[simp] theorem length_pts_bytes (p : Int) : (pts_bytes p).length = 8 := by
  simp [pts_bytes]

theorem length_cluster_bytes (r : ClusterRec) :
    (cluster_bytes r).length = 10 + r.payload.length := by
  simp [cluster_bytes]
  omega

theorem clusters_bytes_cons (r : ClusterRec) (rs : List ClusterRec) :
    clusters_bytes (r :: rs) = cluster_bytes r ++ clusters_bytes rs := by
  simp [clusters_bytes]

@[simp] theorem clusters_bytes_nil : clusters_bytes [] = [] := rfl

/-- Decoding the pts encoding as the loop does recovers the pts of any
record whose pts fits a signed 64-bit integer. -/
theorem toSigned64_pts_bytes (p : Int) (h1 : -(2 ^ 63) ≤ p) (h2 : p < 2 ^ 63) :
    toSigned64 (leVal (pts_bytes p)) = p := by
  have h0 : (0:Int) ≤ p % (2 ^ 64) := Int.emod_nonneg p (by norm_num)
  have hlt : p % (2 ^ 64) < 2 ^ 64 := Int.emod_lt_of_pos p (by norm_num)
  have hv : leVal (pts_bytes p) = (p % (2 ^ 64)).toNat := by
    rw [pts_bytes, leVal_leBytes]
    apply Nat.mod_eq_of_lt
    have he : (256:Nat) ^ 8 = 2 ^ 64 := by norm_num
    rw [he]
    omega
  rw [hv]
  unfold toSigned64
  split
  · omega
  · omega

/-- Reading back the 2-byte block count recovers any count that fits the
16-bit field. -/
theorem leVal_block_count (bc : Nat) (h : bc ≤ 65535) :
    leVal (leBytes 2 bc) = bc := by
  rw [leVal_leBytes]
  apply Nat.mod_eq_of_lt
  norm_num
  omega

theorem expected_packets_map_pts (base : Nat) (rs : List ClusterRec) :
    (expected_packets base rs).map Packet.pts = rs.map ClusterRec.pts := by
  induction rs generalizing base with
  | nil => rfl
  | cons r rs ih => simp [expected_packets, ih]

theorem expected_packets_map_payload (base : Nat) (rs : List ClusterRec) :
    (expected_packets base rs).map Packet.payload = rs.map ClusterRec.payload := by
  induction rs generalizing base with
  | nil => rfl
  | cons r rs ih => simp [expected_packets, ih]

theorem expected_packets_length (base : Nat) (rs : List ClusterRec) :
    (expected_packets base rs).length = rs.length := by
  induction rs generalizing base with
  | nil => rfl
  | cons r rs ih => simp [expected_packets, ih]

/-! Stepping lemmas for the demux loop. -/

theorem readLE_eq' (k : Nat) (d : List Nat) (p : Nat) (e : Bool)
    (h : p + k ≤ d.length) :
    readLE k ⟨d, p, e⟩ = (leVal ((d.drop p).take k), ⟨d, p + k, e⟩) :=
  readLE_eq k ⟨d, p, e⟩ h

theorem avio_read_full' (d : List Nat) (p : Nat) (e : Bool) (n : Nat)
    (h : p + n ≤ d.length) :
    avio_read ⟨d, p, e⟩ n = ((d.drop p).take n, ⟨d, p + n, e⟩) :=
  avio_read_full ⟨d, p, e⟩ n h

theorem avio_read_short' (d : List Nat) (p : Nat) (e : Bool) (n : Nat)
    (h : d.length < p + n) :
    avio_read ⟨d, p, e⟩ n = (d.drop p, ⟨d, d.length, true⟩) :=
  avio_read_short ⟨d, p, e⟩ n h

/-- Once the eof flag is set the loop exits cleanly. -/
theorem demux_loop_eof (s : AvioState) (acc : List Packet) (al : Nat)
    (h : s.eof = true) : demux_loop s acc al = (acc, al, none) := by
  rw [demux_loop_unfold]
  rw [if_pos (show avio_feof s = true from h)]

/-- With at most 8 bytes left at a cluster boundary, the pts read runs
into the end of the stream, the block count reads back as 0, and the
loop exits cleanly with no packet and no allocation. -/
theorem demux_loop_tail_short (d : List Nat) (p : Nat) (acc : List Packet)
    (al : Nat) (hp : p ≤ d.length) (h8 : d.length ≤ p + 8) :
    demux_loop ⟨d, p, false⟩ acc al = (acc, al, none) := by
  have hmin : min (p + 8) d.length = d.length := by omega
  have h64 : (avio_rl64 ⟨d, p, false⟩).2 =
      ⟨d, d.length, decide (d.length < p + 8)⟩ := by
    rw [avio_rl64, readLE_state 8 ⟨d, p, false⟩ hp]
    show (⟨d, min (p + 8) d.length, false || decide (d.length < p + 8)⟩ : AvioState)
      = ⟨d, d.length, decide (d.length < p + 8)⟩
    rw [hmin, Bool.false_or]
  have h16v : (avio_rl16 ⟨d, d.length, decide (d.length < p + 8)⟩).1 = 0 :=
    readLE_val_at_end 2 _ (by simp)
  have h16s : (avio_rl16 ⟨d, d.length, decide (d.length < p + 8)⟩).2 =
      ⟨d, d.length, true⟩ := by
    rw [avio_rl16, readLE_state 2 _ (by simp)]
    show (⟨d, min (d.length + 2) d.length,
        decide (d.length < p + 8) || decide (d.length < d.length + 2)⟩ : AvioState)
      = ⟨d, d.length, true⟩
    have hm2 : min (d.length + 2) d.length = d.length := by omega
    have hd2 : decide (d.length < d.length + 2) = true := by simp
    rw [hm2, hd2, Bool.or_true]
  rw [demux_loop_unfold]
  rw [if_neg (show ¬ avio_feof (⟨d, p, false⟩ : AvioState) = true by simp [avio_feof])]
  simp only [h64, h16v, h16s]
  rw [if_pos trivial]
  exact demux_loop_eof _ acc al rfl

/-- A cluster record whose 2-byte block count field is zero: the loop
reads the 10-byte prefix, emits nothing, allocates nothing, and moves on
to the next record. -/
theorem demux_loop_skip_zero (pre p8 rest : List Nat) (acc : List Packet)
    (al : Nat) (hp8 : p8.length = 8) :
    demux_loop ⟨pre ++ p8 ++ [0, 0] ++ rest, pre.length, false⟩ acc al =
      demux_loop ⟨pre ++ p8 ++ [0, 0] ++ rest, pre.length + 10, false⟩ acc al := by
  have hdl : (pre ++ p8 ++ [0, 0] ++ rest).length
      = pre.length + 8 + 2 + rest.length := by
    simp [hp8]
    omega
  have hdrop2 : (pre ++ p8 ++ [0, 0] ++ rest).drop (pre.length + 8)
      = [0, 0] ++ rest := by
    have hgrp : pre ++ p8 ++ [0, 0] ++ rest = (pre ++ p8) ++ ([0, 0] ++ rest) := by
      simp [List.append_assoc]
    rw [hgrp]
    exact List.drop_left' (by simp [hp8])
  have e64 : avio_rl64 ⟨pre ++ p8 ++ [0, 0] ++ rest, pre.length, false⟩
      = (leVal (((pre ++ p8 ++ [0, 0] ++ rest).drop pre.length).take 8),
        ⟨pre ++ p8 ++ [0, 0] ++ rest, pre.length + 8, false⟩) := by
    rw [avio_rl64, readLE_eq' 8 _ _ _ (by omega)]
  have e16 : avio_rl16 ⟨pre ++ p8 ++ [0, 0] ++ rest, pre.length + 8, false⟩
      = (0, ⟨pre ++ p8 ++ [0, 0] ++ rest, pre.length + 8 + 2, false⟩) := by
    rw [avio_rl16, readLE_eq' 2 _ _ _ (by omega), hdrop2]
    norm_num [leVal]
  rw [demux_loop_unfold]
  rw [if_neg (show ¬ avio_feof (⟨pre ++ p8 ++ [0, 0] ++ rest, pre.length, false⟩
    : AvioState) = true by simp [avio_feof])]
  simp only [e64, e16]
  rw [if_pos trivial]

/-- One well-formed non-empty cluster at the cursor: the loop reads it
whole, emits exactly one packet carrying its payload, its pts and the
position just past it, allocates once, and moves past it. -/
theorem demux_loop_cluster (pre rest : List Nat) (r : ClusterRec)
    (acc : List Packet) (al : Nat) (hr : r.valid) :
    demux_loop ⟨pre ++ cluster_bytes r ++ rest, pre.length, false⟩ acc al =
      demux_loop ⟨pre ++ cluster_bytes r ++ rest,
          pre.length + (cluster_bytes r).length, false⟩
        (acc ++ [⟨r.payload, r.pts, pre.length + (cluster_bytes r).length⟩])
        (al + 1) := by
  obtain ⟨hbc0, hbc1, hpl, hpt1, hpt2⟩ := hr
  have hcb : (cluster_bytes r).length = 10 + r.block_count * 3 := by
    rw [length_cluster_bytes, hpl]
  have hdl : (pre ++ cluster_bytes r ++ rest).length
      = pre.length + (10 + r.block_count * 3) + rest.length := by
    simp [List.length_append, hcb]
    omega
  have htake8 : ((pre ++ cluster_bytes r ++ rest).drop pre.length).take 8
      = pts_bytes r.pts := by
    rw [List.append_assoc, List.drop_left' rfl, cluster_bytes]
    rw [List.append_assoc, List.append_assoc]
    exact List.take_left' (length_pts_bytes r.pts)
  have hdrop2 : (pre ++ cluster_bytes r ++ rest).drop (pre.length + 8)
      = leBytes 2 r.block_count ++ (r.payload ++ rest) := by
    have hgrp : pre ++ cluster_bytes r ++ rest
        = (pre ++ pts_bytes r.pts)
          ++ (leBytes 2 r.block_count ++ (r.payload ++ rest)) := by
      rw [cluster_bytes]
      simp [List.append_assoc]
    rw [hgrp]
    exact List.drop_left' (by simp)
  have hdrop3 : (pre ++ cluster_bytes r ++ rest).drop (pre.length + 8 + 2)
      = r.payload ++ rest := by
    have hgrp : pre ++ cluster_bytes r ++ rest
        = ((pre ++ pts_bytes r.pts) ++ leBytes 2 r.block_count)
          ++ (r.payload ++ rest) := by
      rw [cluster_bytes]
      simp [List.append_assoc]
    rw [hgrp]
    exact List.drop_left' (by simp)
  have e64 : avio_rl64 ⟨pre ++ cluster_bytes r ++ rest, pre.length, false⟩
      = (leVal (pts_bytes r.pts),
        ⟨pre ++ cluster_bytes r ++ rest, pre.length + 8, false⟩) := by
    rw [avio_rl64, readLE_eq' 8 _ _ _ (by omega), htake8]
  have e16 : avio_rl16 ⟨pre ++ cluster_bytes r ++ rest, pre.length + 8, false⟩
      = (r.block_count,
        ⟨pre ++ cluster_bytes r ++ rest, pre.length + 8 + 2, false⟩) := by
    rw [avio_rl16, readLE_eq' 2 _ _ _ (by omega), hdrop2,
      List.take_left' (length_leBytes 2 r.block_count),
      leVal_block_count r.block_count hbc1]
  have erd : avio_read ⟨pre ++ cluster_bytes r ++ rest, pre.length + 8 + 2, false⟩
      (r.block_count * 3)
      = (r.payload, ⟨pre ++ cluster_bytes r ++ rest,
        pre.length + 8 + 2 + r.block_count * 3, false⟩) := by
    rw [avio_read_full' _ _ _ _ (by omega), hdrop3, List.take_left' hpl]
  rw [demux_loop_unfold]
  rw [if_neg (show ¬ avio_feof (⟨pre ++ cluster_bytes r ++ rest, pre.length, false⟩
    : AvioState) = true by simp [avio_feof])]
  simp only [e64, e16, erd, avio_tell]
  rw [if_neg (show ¬ r.block_count = 0 by omega)]
  rw [if_neg (show ¬ r.payload.length ≠ r.block_count * 3 by omega)]
  rw [toSigned64_pts_bytes r.pts hpt1 hpt2]
  have hpos : pre.length + 8 + 2 + r.block_count * 3
      = pre.length + (cluster_bytes r).length := by omega
  rw [hpos]

/-- A cluster whose declared payload extends past the end of the stream:
the loop allocates, the payload read comes up short, and the loop stops
with the truncated-cluster error, emitting nothing further. -/
theorem demux_loop_trunc (pre p8 rest : List Nat) (bc : Nat) (acc : List Packet)
    (al : Nat) (hp8 : p8.length = 8) (hbc0 : 0 < bc) (hbc1 : bc ≤ 65535)
    (hrest : rest.length < bc * 3) :
    demux_loop ⟨pre ++ p8 ++ leBytes 2 bc ++ rest, pre.length, false⟩ acc al =
      (acc, al + 1, some (.truncatedCluster (bc * 3) rest.length
        (pre.length + 10 + rest.length))) := by
  have hdl : (pre ++ p8 ++ leBytes 2 bc ++ rest).length
      = pre.length + 8 + 2 + rest.length := by
    simp [hp8]
    omega
  have hdrop2 : (pre ++ p8 ++ leBytes 2 bc ++ rest).drop (pre.length + 8)
      = leBytes 2 bc ++ rest := by
    have hgrp : pre ++ p8 ++ leBytes 2 bc ++ rest
        = (pre ++ p8) ++ (leBytes 2 bc ++ rest) := by
      simp [List.append_assoc]
    rw [hgrp]
    exact List.drop_left' (by simp [hp8])
  have hdrop3 : (pre ++ p8 ++ leBytes 2 bc ++ rest).drop (pre.length + 8 + 2)
      = rest := by
    have hgrp : pre ++ p8 ++ leBytes 2 bc ++ rest
        = ((pre ++ p8) ++ leBytes 2 bc) ++ rest := by
      simp [List.append_assoc]
    rw [hgrp]
    exact List.drop_left' (by simp [hp8])
  have e64 : avio_rl64 ⟨pre ++ p8 ++ leBytes 2 bc ++ rest, pre.length, false⟩
      = (leVal (((pre ++ p8 ++ leBytes 2 bc ++ rest).drop pre.length).take 8),
        ⟨pre ++ p8 ++ leBytes 2 bc ++ rest, pre.length + 8, false⟩) := by
    rw [avio_rl64, readLE_eq' 8 _ _ _ (by omega)]
  have e16 : avio_rl16 ⟨pre ++ p8 ++ leBytes 2 bc ++ rest, pre.length + 8, false⟩
      = (bc, ⟨pre ++ p8 ++ leBytes 2 bc ++ rest, pre.length + 8 + 2, false⟩) := by
    rw [avio_rl16, readLE_eq' 2 _ _ _ (by omega), hdrop2,
      List.take_left' (length_leBytes 2 bc), leVal_block_count bc hbc1]
  have erd : avio_read ⟨pre ++ p8 ++ leBytes 2 bc ++ rest, pre.length + 8 + 2, false⟩
      (bc * 3)
      = (rest, ⟨pre ++ p8 ++ leBytes 2 bc ++ rest,
        (pre ++ p8 ++ leBytes 2 bc ++ rest).length, true⟩) := by
    rw [avio_read_short' _ _ _ _ (by omega), hdrop3]
  rw [demux_loop_unfold]
  rw [if_neg (show ¬ avio_feof (⟨pre ++ p8 ++ leBytes 2 bc ++ rest, pre.length, false⟩
    : AvioState) = true by simp [avio_feof])]
  simp only [e64, e16, erd, avio_tell]
  rw [if_neg (show ¬ bc = 0 by omega)]
  rw [if_pos (show rest.length ≠ bc * 3 by omega)]
  rw [hdl]

/-- A two-byte read whose second byte is past the end of the stream:
the low byte is real, the high byte pads as zero, and the eof flag is
set. -/
theorem readLE2_last (d : List Nat) (p : Nat) (b : Nat) (hd : d.drop p = [b]) :
    readLE 2 ⟨d, p, false⟩ = (b, ⟨d, p + 1, true⟩) := by
  have hlen : d.length = p + 1 := by
    have hc := congrArg List.length hd
    simp [List.length_drop] at hc
    omega
  have hp : p < d.length := by omega
  have hbv : d[p] = b := by
    have h0 := List.drop_eq_getElem_cons hp
    rw [hd] at h0
    injection h0 with h1 h2
    exact h1.symm
  have h1 : avio_r8 ⟨d, p, false⟩ = (b, ⟨d, p + 1, false⟩) := by
    simp [avio_r8, hp, hbv]
  have h2 : avio_r8 ⟨d, p + 1, false⟩ = (0, ⟨d, p + 1, true⟩) := by
    simp [avio_r8, show ¬ (p + 1 < d.length) by omega]
  have h3 : avio_r8 ⟨d, p + 1, true⟩ = (0, ⟨d, p + 1, true⟩) := by
    simp [avio_r8, show ¬ (p + 1 < d.length) by omega]
  simp [readLE, h1, h2, h3]

/-- A stream that ends with exactly 9 bytes of a cluster prefix whose
ninth byte, the low byte of the block count, is nonzero: the block count
reads back nonzero, the payload read returns nothing, and the loop stops
with the truncated-cluster error instead of terminating cleanly. -/
theorem demux_loop_trunc_count (pre e8 : List Nat) (b : Nat) (acc : List Packet)
    (al : Nat) (h8 : e8.length = 8) (hb : b ≠ 0) :
    demux_loop ⟨pre ++ e8 ++ [b], pre.length, false⟩ acc al =
      (acc, al + 1, some (.truncatedCluster (b * 3) 0 (pre.length + 9))) := by
  have hdl : (pre ++ e8 ++ [b]).length = pre.length + 9 := by
    simp [h8]
  have hdrop2 : (pre ++ e8 ++ [b]).drop (pre.length + 8) = [b] := by
    have hgrp : pre ++ e8 ++ [b] = (pre ++ e8) ++ [b] := by
      simp [List.append_assoc]
    rw [hgrp]
    exact List.drop_left' (by simp [h8])
  have e64 : avio_rl64 ⟨pre ++ e8 ++ [b], pre.length, false⟩
      = (leVal (((pre ++ e8 ++ [b]).drop pre.length).take 8),
        ⟨pre ++ e8 ++ [b], pre.length + 8, false⟩) := by
    rw [avio_rl64, readLE_eq' 8 _ _ _ (by omega)]
  have e16 : avio_rl16 ⟨pre ++ e8 ++ [b], pre.length + 8, false⟩
      = (b, ⟨pre ++ e8 ++ [b], pre.length + 8 + 1, true⟩) := by
    rw [avio_rl16, readLE2_last _ _ _ hdrop2]
  have erd : avio_read ⟨pre ++ e8 ++ [b], pre.length + 8 + 1, true⟩ (b * 3)
      = (([] : List Nat), ⟨pre ++ e8 ++ [b], (pre ++ e8 ++ [b]).length, true⟩) := by
    rw [avio_read_short' _ _ _ _ (by omega)]
    rw [show pre.length + 8 + 1 = (pre ++ e8 ++ [b]).length by omega]
    rw [List.drop_length]
  rw [demux_loop_unfold]
  rw [if_neg (show ¬ avio_feof (⟨pre ++ e8 ++ [b], pre.length, false⟩
    : AvioState) = true by simp [avio_feof])]
  simp only [e64, e16, erd, avio_tell]
  rw [if_neg hb]
  rw [if_pos (show ([] : List Nat).length ≠ b * 3 by simp; omega)]
  rw [hdl]
  simp

set_option maxRecDepth 4000 in
set_option maxHeartbeats 2000000 in
/-- Running the loop over the encoding of a list of well-formed clusters
followed by anything: it emits exactly their packets, in order, with one
allocation per cluster, and leaves the cursor at the start of the
suffix. -/
theorem demux_loop_clusters (rs : List ClusterRec) : ∀ (pre suf : List Nat)
    (acc : List Packet) (al : Nat), (∀ r ∈ rs, r.valid) →
    demux_loop ⟨pre ++ clusters_bytes rs ++ suf, pre.length, false⟩ acc al =
      demux_loop ⟨pre ++ clusters_bytes rs ++ suf,
          pre.length + (clusters_bytes rs).length, false⟩
        (acc ++ expected_packets pre.length rs) (al + rs.length) := by
  induction rs with
  | nil =>
    intro pre suf acc al hv
    simp [clusters_bytes, expected_packets]
  | cons r rs ih =>
    intro pre suf acc al hv
    have hr : r.valid := hv r (by simp)
    have hrs : ∀ x ∈ rs, x.valid := fun x hx => hv x (by simp [hx])
    have hgrp : pre ++ clusters_bytes (r :: rs) ++ suf
        = pre ++ cluster_bytes r ++ (clusters_bytes rs ++ suf) := by
      rw [clusters_bytes_cons]
      simp [List.append_assoc]
    rw [hgrp]
    rw [demux_loop_cluster pre (clusters_bytes rs ++ suf) r acc al hr]
    have hgrp2 : pre ++ cluster_bytes r ++ (clusters_bytes rs ++ suf)
        = (pre ++ cluster_bytes r) ++ clusters_bytes rs ++ suf := by
      simp [List.append_assoc]
    have hplen : pre.length + (cluster_bytes r).length
        = (pre ++ cluster_bytes r).length := by
      simp
    rw [hgrp2, hplen]
    have e1 : pre.length + (clusters_bytes (r :: rs)).length
        = (pre ++ cluster_bytes r).length + (clusters_bytes rs).length := by
      simp only [clusters_bytes_cons, List.length_append]
      omega
    have e2 : acc ++ expected_packets pre.length (r :: rs)
        = (acc ++ [⟨r.payload, r.pts, (pre ++ cluster_bytes r).length⟩])
          ++ expected_packets (pre ++ cluster_bytes r).length rs := by
      simp only [expected_packets, List.length_append, List.append_assoc,
        List.singleton_append]
    have e3 : al + (r :: rs).length = al + 1 + rs.length := by
      simp only [List.length_cons]
      omega
    simp only [e1, e2, e3]
    have hfin := ih (pre ++ cluster_bytes r) suf
      (acc ++ [Packet.mk r.payload r.pts (pre ++ cluster_bytes r).length]) (al + 1) hrs
    exact hfin

/-! Evaluation of the header phase. -/

/-- With at least 11 bytes available the header phase consumes exactly
11 bytes and checks the first 11 bytes of the input. -/
theorem header_phase_long (data : List Nat) (h : 11 ≤ data.length) :
    header_phase data = (⟨data, 11, false⟩, check_header (data.take 11) 11) := by
  unfold header_phase
  rw [avio_read_full ⟨data, 0, false⟩ 11 (by simpa using h)]
  show ((⟨data, 0 + 11, false⟩ : AvioState),
      check_header ((data.drop 0).take 11) ((data.drop 0).take 11).length)
    = (⟨data, 11, false⟩, check_header (data.take 11) 11)
  rw [List.drop_zero]
  have hl : (data.take 11).length = 11 := by
    rw [List.length_take]
    omega
  rw [hl]

/-- With fewer than 11 bytes available the header phase reads them all,
reaches end-of-stream, and fails the first check. -/
theorem header_phase_short (data : List Nat) (h : data.length < 11) :
    header_phase data = (⟨data, data.length, true⟩, some .notThisFormat) := by
  unfold header_phase
  rw [avio_read_short ⟨data, 0, false⟩ 11 (by simpa using h)]
  show ((⟨data, data.length, true⟩ : AvioState),
      check_header (data.drop 0) (data.drop 0).length)
    = (⟨data, data.length, true⟩, some .notThisFormat)
  rw [List.drop_zero]
  unfold check_header
  rw [if_pos (Or.inl (by omega))]

/-- A failed header phase is the whole story of rcwt_read_header: no
stream, no packet, no allocation, just the error. -/
theorem rcwt_read_header_err (data : List Nat) (e : DemuxError)
    (h : (header_phase data).2 = some e) :
    rcwt_read_header data = ⟨[], [], 0, some e⟩ := by
  unfold rcwt_read_header
  simp only [h]

/-- A successful header phase creates the subtitle stream and hands the
post-header state to the demux loop. -/
theorem rcwt_read_header_ok (data : List Nat)
    (h : (header_phase data).2 = none) :
    rcwt_read_header data = ⟨[rcwtStream],
      (demux_loop (header_phase data).1 [] 0).1,
      (demux_loop (header_phase data).1 [] 0).2.1,
      (demux_loop (header_phase data).1 [] 0).2.2⟩ := by
  unfold rcwt_read_header
  simp only [h]

/-! Helpers on list indexing used to phrase header byte conditions. -/

theorem getD_take_11 (l : List Nat) (i : Nat) (h : i < 11) :
    (l.take 11).getD i 0 = l.getD i 0 := by
  simp only [List.getD, List.get?_take h]

theorem getD_lt_256 (l : List Nat) (i : Nat) (hb : ∀ b ∈ l, b < 256) :
    l.getD i 0 < 256 := by
  by_cases h : i < l.length
  · rw [List.getD_eq_getElem l 0 h]
    exact hb _ (List.getElem_mem h)
  · have hz : l.getD i 0 = 0 := by
      simp only [List.getD, List.get?_eq_none.2 (by omega : l.length ≤ i),
        Option.getD_none]
    omega

/-- The whole of rcwt_read_header on a valid header followed by the
encoding of well-formed clusters and an arbitrary suffix: the subtitle
stream is created and the loop resumes at the suffix with the packets of
the clusters already in the queue, one allocation each. -/
theorem rcwt_with_clusters (hdr suf : List Nat) (rs : List ClusterRec)
    (hlen : hdr.length = 11) (hok : check_header hdr 11 = none)
    (hv : ∀ r ∈ rs, r.valid) :
    rcwt_read_header (hdr ++ clusters_bytes rs ++ suf) = ⟨[rcwtStream],
      (demux_loop ⟨hdr ++ clusters_bytes rs ++ suf,
        (hdr ++ clusters_bytes rs).length, false⟩
        (expected_packets hdr.length rs) rs.length).1,
      (demux_loop ⟨hdr ++ clusters_bytes rs ++ suf,
        (hdr ++ clusters_bytes rs).length, false⟩
        (expected_packets hdr.length rs) rs.length).2.1,
      (demux_loop ⟨hdr ++ clusters_bytes rs ++ suf,
        (hdr ++ clusters_bytes rs).length, false⟩
        (expected_packets hdr.length rs) rs.length).2.2⟩ := by
  have hd11 : 11 ≤ (hdr ++ clusters_bytes rs ++ suf).length := by
    simp only [List.length_append, hlen]
    omega
  have htake : (hdr ++ clusters_bytes rs ++ suf).take 11 = hdr := by
    rw [List.append_assoc]
    exact List.take_left' hlen
  have hhp : header_phase (hdr ++ clusters_bytes rs ++ suf)
      = (⟨hdr ++ clusters_bytes rs ++ suf, 11, false⟩, none) := by
    rw [header_phase_long _ hd11, htake, hok]
  rw [rcwt_read_header_ok _ (by rw [hhp])]
  simp only [hhp]
  rw [show (11 : Nat) = hdr.length from hlen.symm]
  rw [demux_loop_clusters rs hdr suf [] 0 hv]
  simp only [List.nil_append, Nat.zero_add]
  rw [show hdr.length + (clusters_bytes rs).length
    = (hdr ++ clusters_bytes rs).length by simp]

/-- A stream that ends with exactly 9 bytes of a cluster prefix whose
ninth byte is zero: the block count reads back 0 and the loop exits
cleanly. -/
theorem demux_loop_tail_nine_zero (pre e8 : List Nat) (acc : List Packet)
    (al : Nat) (h8 : e8.length = 8) :
    demux_loop ⟨pre ++ e8 ++ [0], pre.length, false⟩ acc al = (acc, al, none) := by
  have hdl : (pre ++ e8 ++ [0]).length = pre.length + 9 := by
    simp [h8]
  have hdrop2 : (pre ++ e8 ++ [0]).drop (pre.length + 8) = [0] := by
    have hgrp : pre ++ e8 ++ [0] = (pre ++ e8) ++ [0] := by
      simp [List.append_assoc]
    rw [hgrp]
    exact List.drop_left' (by simp [h8])
  have e64 : avio_rl64 ⟨pre ++ e8 ++ [0], pre.length, false⟩
      = (leVal (((pre ++ e8 ++ [0]).drop pre.length).take 8),
        ⟨pre ++ e8 ++ [0], pre.length + 8, false⟩) := by
    rw [avio_rl64, readLE_eq' 8 _ _ _ (by omega)]
  have e16 : avio_rl16 ⟨pre ++ e8 ++ [0], pre.length + 8, false⟩
      = (0, ⟨pre ++ e8 ++ [0], pre.length + 8 + 1, true⟩) := by
    rw [avio_rl16, readLE2_last _ _ _ hdrop2]
  rw [demux_loop_unfold]
  rw [if_neg (show ¬ avio_feof (⟨pre ++ e8 ++ [0], pre.length, false⟩
    : AvioState) = true by simp [avio_feof])]
  simp only [e64, e16]
  rw [if_pos trivial]
  exact demux_loop_eof _ acc al rfl

/-! The claims, as theorems. -/

/-- A valid header, as in the end-to-end scenarios. -/
def sampleHeader : List Nat :=
  [0xCC, 0xCC, 0xED, 0xCC, 0x00, 0x00, 0x00, 0x01, 0x00, 0x00, 0x00]

/-- A well-formed two-block cluster record. -/
def sampleCluster : ClusterRec := ⟨1500, 2, [1, 2, 3, 4, 5, 6]⟩

/-- C1: for every input whose header validates, containing N cluster
records each with block_count > 0 and a fully present payload, the
cluster-streaming loop emits exactly N packets, in the same order as the
clusters appear in the stream, and each packet carries the same pts and
the same payload bytes as its input cluster record. -/
theorem c1_round_trip (hdr : List Nat) (rs : List ClusterRec)
    (hlen : hdr.length = 11) (hok : check_header hdr 11 = none)
    (hv : ∀ r ∈ rs, r.valid) :
    (rcwt_read_header (hdr ++ clusters_bytes rs)).err = none ∧
    (rcwt_read_header (hdr ++ clusters_bytes rs)).streams = [rcwtStream] ∧
    (rcwt_read_header (hdr ++ clusters_bytes rs)).packets.length = rs.length ∧
    (rcwt_read_header (hdr ++ clusters_bytes rs)).packets.map Packet.pts
      = rs.map ClusterRec.pts ∧
    (rcwt_read_header (hdr ++ clusters_bytes rs)).packets.map Packet.payload
      = rs.map ClusterRec.payload := by
  have hsplit : hdr ++ clusters_bytes rs = hdr ++ clusters_bytes rs ++ [] := by
    simp
  rw [hsplit, rcwt_with_clusters hdr [] rs hlen hok hv]
  rw [demux_loop_tail_short _ _ _ _ (by simp) (by simp)]
  exact ⟨rfl, rfl, expected_packets_length hdr.length rs,
    expected_packets_map_pts hdr.length rs,
    expected_packets_map_payload hdr.length rs⟩

/-- Witness for C1 at the end-to-end scenario of the spec: one two-block
cluster with pts 1500 behind a valid header. -/
theorem c1_round_trip_witness :
    sampleHeader.length = 11 ∧ check_header sampleHeader 11 = none ∧
    (∀ r ∈ [sampleCluster], r.valid) ∧
    (rcwt_read_header (sampleHeader ++ clusters_bytes [sampleCluster])).err
      = none ∧
    (rcwt_read_header (sampleHeader ++ clusters_bytes [sampleCluster])).streams
      = [rcwtStream] ∧
    (rcwt_read_header (sampleHeader ++ clusters_bytes [sampleCluster])).packets.length
      = 1 ∧
    (rcwt_read_header (sampleHeader ++ clusters_bytes [sampleCluster])).packets.map
        Packet.pts = [(1500 : Int)] ∧
    (rcwt_read_header (sampleHeader ++ clusters_bytes [sampleCluster])).packets.map
        Packet.payload = [[1, 2, 3, 4, 5, 6]] := by
  have h := c1_round_trip sampleHeader [sampleCluster]
    (by decide) (by decide) (by decide)
  exact ⟨by decide, by decide, by decide,
    h.1, h.2.1, h.2.2.1, h.2.2.2.1, h.2.2.2.2⟩

/-- C2: a cluster that declares more payload than remains in the stream
makes the read fail with the truncated-cluster error, and the queue then
holds exactly the packets of the clusters before the failing one, no
matter what bytes follow the cluster header. -/
theorem c2_truncated_cluster_aborts (hdr p8 rest : List Nat)
    (rs : List ClusterRec) (bc : Nat)
    (hlen : hdr.length = 11) (hok : check_header hdr 11 = none)
    (hv : ∀ r ∈ rs, r.valid) (hp8 : p8.length = 8)
    (hbc0 : 0 < bc) (hbc1 : bc ≤ 65535) (hrest : rest.length < bc * 3) :
    rcwt_read_header (hdr ++ clusters_bytes rs ++ (p8 ++ leBytes 2 bc ++ rest))
      = ⟨[rcwtStream], expected_packets hdr.length rs, rs.length + 1,
        some (.truncatedCluster (bc * 3) rest.length
          (hdr.length + (clusters_bytes rs).length + 10 + rest.length))⟩ := by
  rw [rcwt_with_clusters hdr (p8 ++ leBytes 2 bc ++ rest) rs hlen hok hv]
  have hre : hdr ++ clusters_bytes rs ++ (p8 ++ leBytes 2 bc ++ rest)
      = (hdr ++ clusters_bytes rs) ++ p8 ++ leBytes 2 bc ++ rest := by
    simp [List.append_assoc]
  rw [hre]
  rw [demux_loop_trunc (hdr ++ clusters_bytes rs) p8 rest bc
    (expected_packets hdr.length rs) rs.length hp8 hbc0 hbc1 hrest]
  simp [List.length_append]

/-- Witness for C2: a valid header, one complete cluster, then a cluster
declaring two blocks with only one payload byte left; the read fails
with the truncated-cluster error and only the first packet is queued. -/
theorem c2_truncated_cluster_aborts_witness :
    rcwt_read_header (sampleHeader ++ clusters_bytes [sampleCluster]
        ++ ([0, 0, 0, 0, 0, 0, 0, 0] ++ leBytes 2 2 ++ [0xAB]))
      = ⟨[rcwtStream], expected_packets sampleHeader.length [sampleCluster],
        1 + 1, some (.truncatedCluster (2 * 3) 1
          (sampleHeader.length + (clusters_bytes [sampleCluster]).length
            + 10 + 1))⟩ := by
  have h := c2_truncated_cluster_aborts sampleHeader [0, 0, 0, 0, 0, 0, 0, 0]
    [0xAB] [sampleCluster] 2 (by decide) (by decide) (by decide) (by decide)
    (by decide) (by decide) (by decide)
  exact h

/-- C5: a cluster record whose block count field is zero emits no packet,
performs no payload allocation, is treated as valid rather than an
error, and the loop continues at the next record 10 bytes further on. -/
theorem c5_zero_block_cluster_skipped (pre p8 rest : List Nat)
    (acc : List Packet) (al : Nat) (hp8 : p8.length = 8) :
    demux_loop ⟨pre ++ p8 ++ [0, 0] ++ rest, pre.length, false⟩ acc al =
      demux_loop ⟨pre ++ p8 ++ [0, 0] ++ rest, pre.length + 10, false⟩ acc al :=
  demux_loop_skip_zero pre p8 rest acc al hp8

/-- Witness for C5 at a concrete empty cluster in front of further data. -/
theorem c5_zero_block_cluster_skipped_witness :
    demux_loop ⟨([] : List Nat) ++ [9, 9, 9, 9, 9, 9, 9, 9] ++ [0, 0] ++ [7],
        ([] : List Nat).length, false⟩ [] 0 =
      demux_loop ⟨([] : List Nat) ++ [9, 9, 9, 9, 9, 9, 9, 9] ++ [0, 0] ++ [7],
        ([] : List Nat).length + 10, false⟩ [] 0 :=
  c5_zero_block_cluster_skipped [] [9, 9, 9, 9, 9, 9, 9, 9] [7] [] 0 (by decide)

/-- C7: an input whose 11-byte header fails any validation check opens
with the error and no observable effect on the output state: no stream
descriptor is created, no packet is queued, nothing is allocated. -/
theorem c7_header_failure_no_effect (data : List Nat) (e : DemuxError)
    (h : (header_phase data).2 = some e) :
    rcwt_read_header data = ⟨[], [], 0, some e⟩ :=
  rcwt_read_header_err data e h

/-- Witness for C7 at the end-to-end scenario of the spec: writer id
0xFF with writer subversion 0x00 fails with the unsupported-build error,
creating no stream and no packet. -/
theorem c7_header_failure_no_effect_witness :
    rcwt_read_header [0xCC, 0xCC, 0xED, 0xFF, 0x00, 0x00, 0x00, 0x01, 0x00,
        0x00, 0x00]
      = ⟨[], [], 0, some .unsupportedWriterBuild⟩ :=
  c7_header_failure_no_effect _ .unsupportedWriterBuild (by decide)

/-- C8: the block count read from the 2-byte field of byte-valued data
is at most 65535, so the payload size block_count * 3 is at most 196605
and is represented exactly in the int arithmetic of the source. -/
theorem c8_block_count_no_overflow (s : AvioState)
    (hb : ∀ b ∈ s.data, b < 256) :
    (avio_rl16 s).1 ≤ 65535 ∧ (avio_rl16 s).1 * 3 ≤ 196605 ∧
      (avio_rl16 s).1 * 3 < 2 ^ 31 := by
  have h : (avio_rl16 s).1 < 65536 := by
    have h2 := readLE_val_lt 2 s hb
    norm_num at h2
    exact h2
  exact ⟨by omega, by omega, by omega⟩

/-- Witness for C8 at the largest 16-bit block count. -/
theorem c8_block_count_no_overflow_witness :
    (avio_rl16 ⟨[0xFF, 0xFF], 0, false⟩).1 ≤ 65535 ∧
    (avio_rl16 ⟨[0xFF, 0xFF], 0, false⟩).1 * 3 ≤ 196605 ∧
    (avio_rl16 ⟨[0xFF, 0xFF], 0, false⟩).1 * 3 < 2 ^ 31 :=
  c8_block_count_no_overflow ⟨[0xFF, 0xFF], 0, false⟩ (by decide)

/-- C9: the header phase consumes exactly 11 bytes from the input cursor
and touches nothing else: whatever the verdict, the data is unchanged
and the cursor sits 11 bytes past the start, or at end-of-stream when
fewer than 11 bytes were available. -/
theorem c9_header_consumes_11 (data : List Nat) :
    (header_phase data).1.data = data ∧
    (header_phase data).1.pos = min 11 data.length := by
  by_cases h : 11 ≤ data.length
  · rw [header_phase_long data h]
    refine ⟨rfl, ?_⟩
    show (11 : Nat) = min 11 data.length
    omega
  · rw [header_phase_short data (by omega)]
    refine ⟨rfl, ?_⟩
    show data.length = min 11 data.length
    omega

/-- A 9-byte list decomposes as its first 8 bytes and its last byte. -/
theorem take8_getD8 (extra : List Nat) (hex9 : extra.length = 9) :
    extra = extra.take 8 ++ [extra.getD 8 0] := by
  have htd : extra.take 8 ++ extra.drop 8 = extra := List.take_append_drop 8 extra
  have hdlen : (extra.drop 8).length = 1 := by
    simp [List.length_drop, hex9]
  have hdrop8 : extra.drop 8 = [extra.getD 8 0] := by
    cases hdd : extra.drop 8 with
    | nil =>
      rw [hdd] at hdlen
      simp at hdlen
    | cons x xs =>
      rw [hdd] at hdlen
      simp only [List.length_cons] at hdlen
      have hxs : xs = [] := List.eq_nil_of_length_eq_zero (by omega)
      subst hxs
      have hc := List.drop_eq_getElem_cons (l := extra)
        (show 8 < extra.length by omega)
      rw [hdd] at hc
      injection hc with hx hrest
      rw [hx, List.getD_eq_getElem extra 0 (by omega)]
  conv_lhs => rw [← htd]
  rw [hdrop8]

/-- C3: header validation performs its four checks in order and stops at
the first failure, each failing check yielding its own distinct error:
missing magic bytes give the not-this-format error; a writer id outside
0xCC/0xFF or a nonzero reserved byte gives the unsupported-writer error;
a format version other than 0x0001 gives the unsupported-version error;
writer id 0xFF with writer subversion other than 0x60 gives the
unsupported-writer-build error. -/
theorem c3_checks_sequential (data : List Nat) (hb : ∀ b ∈ data, b < 256)
    (hlen : 11 ≤ data.length) :
    (¬ (data.getD 0 0 = 0xCC ∧ data.getD 1 0 = 0xCC ∧ data.getD 2 0 = 0xED) →
      rcwt_read_header data = ⟨[], [], 0, some .notThisFormat⟩) ∧
    (data.getD 0 0 = 0xCC → data.getD 1 0 = 0xCC → data.getD 2 0 = 0xED →
      ¬ ((data.getD 3 0 = 0xCC ∨ data.getD 3 0 = 0xFF) ∧ data.getD 4 0 = 0x00) →
      rcwt_read_header data = ⟨[], [], 0, some .unsupportedWriter⟩) ∧
    (data.getD 0 0 = 0xCC → data.getD 1 0 = 0xCC → data.getD 2 0 = 0xED →
      (data.getD 3 0 = 0xCC ∨ data.getD 3 0 = 0xFF) → data.getD 4 0 = 0x00 →
      ¬ (data.getD 6 0 = 0x00 ∧ data.getD 7 0 = 0x01) →
      rcwt_read_header data = ⟨[], [], 0, some .unsupportedVersion⟩) ∧
    (data.getD 0 0 = 0xCC → data.getD 1 0 = 0xCC → data.getD 2 0 = 0xED →
      (data.getD 3 0 = 0xCC ∨ data.getD 3 0 = 0xFF) → data.getD 4 0 = 0x00 →
      data.getD 6 0 = 0x00 → data.getD 7 0 = 0x01 →
      data.getD 3 0 = 0xFF → data.getD 5 0 ≠ 0x60 →
      rcwt_read_header data = ⟨[], [], 0, some .unsupportedWriterBuild⟩) := by
  have hg : ∀ i, i < 11 → (data.take 11).getD i 0 = data.getD i 0 :=
    fun i hi => getD_take_11 data i hi
  have hby : ∀ i, data.getD i 0 < 256 := fun i => getD_lt_256 data i hb
  have hR0 : AV_RB16 (data.take 11) 0 = data.getD 0 0 * 256 + data.getD 1 0 := by
    unfold AV_RB16
    norm_num
  have hR6 : AV_RB16 (data.take 11) 6 = data.getD 6 0 * 256 + data.getD 7 0 := by
    unfold AV_RB16
    norm_num
  have hq0 := hby 0
  have hq1 := hby 1
  have hq6 := hby 6
  have hq7 := hby 7
  refine ⟨?_, ?_, ?_, ?_⟩
  · intro hm
    apply rcwt_read_header_err
    rw [header_phase_long data hlen]
    show check_header (data.take 11) 11 = some DemuxError.notThisFormat
    unfold check_header
    have hc1 : ((11:Nat) ≠ 11 ∨ AV_RB16 (data.take 11) 0 ≠ 0xCCCC ∨
        (data.take 11).getD 2 0 ≠ 0xED) := by
      rw [hR0, hg 2 (by norm_num)]
      omega
    rw [if_pos hc1]
  · intro ha0 ha1 ha2 hw
    apply rcwt_read_header_err
    rw [header_phase_long data hlen]
    show check_header (data.take 11) 11 = some DemuxError.unsupportedWriter
    unfold check_header
    have hc1n : ¬ ((11:Nat) ≠ 11 ∨ AV_RB16 (data.take 11) 0 ≠ 0xCCCC ∨
        (data.take 11).getD 2 0 ≠ 0xED) := by
      rw [hR0, hg 2 (by norm_num)]
      omega
    have hc2 : (((data.take 11).getD 3 0 ≠ 0xCC ∧ (data.take 11).getD 3 0 ≠ 0xFF)
        ∨ (data.take 11).getD 4 0 ≠ 0x00) := by
      rw [hg 3 (by norm_num), hg 4 (by norm_num)]
      omega
    rw [if_neg hc1n, if_pos hc2]
  · intro ha0 ha1 ha2 hw3 hw4 hv'
    apply rcwt_read_header_err
    rw [header_phase_long data hlen]
    show check_header (data.take 11) 11 = some DemuxError.unsupportedVersion
    unfold check_header
    have hc1n : ¬ ((11:Nat) ≠ 11 ∨ AV_RB16 (data.take 11) 0 ≠ 0xCCCC ∨
        (data.take 11).getD 2 0 ≠ 0xED) := by
      rw [hR0, hg 2 (by norm_num)]
      omega
    have hc2n : ¬ (((data.take 11).getD 3 0 ≠ 0xCC ∧
        (data.take 11).getD 3 0 ≠ 0xFF) ∨ (data.take 11).getD 4 0 ≠ 0x00) := by
      rw [hg 3 (by norm_num), hg 4 (by norm_num)]
      omega
    have hc3 : AV_RB16 (data.take 11) 6 ≠ 0x0001 := by
      rw [hR6]
      omega
    rw [if_neg hc1n, if_neg hc2n, if_pos hc3]
  · intro ha0 ha1 ha2 hw3 hw4 hv6 hv7 h3ff h5
    apply rcwt_read_header_err
    rw [header_phase_long data hlen]
    show check_header (data.take 11) 11 = some DemuxError.unsupportedWriterBuild
    unfold check_header
    have hc1n : ¬ ((11:Nat) ≠ 11 ∨ AV_RB16 (data.take 11) 0 ≠ 0xCCCC ∨
        (data.take 11).getD 2 0 ≠ 0xED) := by
      rw [hR0, hg 2 (by norm_num)]
      omega
    have hc2n : ¬ (((data.take 11).getD 3 0 ≠ 0xCC ∧
        (data.take 11).getD 3 0 ≠ 0xFF) ∨ (data.take 11).getD 4 0 ≠ 0x00) := by
      rw [hg 3 (by norm_num), hg 4 (by norm_num)]
      omega
    have hc3n : ¬ (AV_RB16 (data.take 11) 6 ≠ 0x0001) := by
      rw [hR6]
      omega
    have hc4 : ((data.take 11).getD 3 0 = 0xFF ∧
        (data.take 11).getD 5 0 ≠ 0x60) := by
      rw [hg 3 (by norm_num), hg 5 (by norm_num)]
      exact ⟨h3ff, h5⟩
    rw [if_neg hc1n, if_neg hc2n, if_neg hc3n, if_pos hc4]

/-- Witness for C3 at a header with a bad writer id: the second check
fires with the unsupported-writer error. -/
theorem c3_checks_sequential_witness :
    rcwt_read_header [0xCC, 0xCC, 0xED, 0xAA, 0x00, 0x00, 0x00, 0x01, 0x00,
        0x00, 0x00]
      = ⟨[], [], 0, some .unsupportedWriter⟩ :=
  (c3_checks_sequential _ (by decide) (by decide)).2.1
    (by decide) (by decide) (by decide) (by decide)

/-- C4: on an 11-byte header passing the magic, writer, reserved and
version checks, writer id 0xFF validates exactly when the writer
subversion byte is 0x60 and fails with the unsupported-writer-build
error otherwise, while writer id 0xCC never has its subversion byte
checked: every value passes. -/
theorem c4_subversion_check (hdr : List Nat) (hlen : hdr.length = 11)
    (hb : ∀ b ∈ hdr, b < 256)
    (h0 : hdr.getD 0 0 = 0xCC) (h1 : hdr.getD 1 0 = 0xCC)
    (h2 : hdr.getD 2 0 = 0xED) (h4 : hdr.getD 4 0 = 0x00)
    (h6 : hdr.getD 6 0 = 0x00) (h7 : hdr.getD 7 0 = 0x01) :
    (hdr.getD 3 0 = 0xFF →
      ((check_header hdr 11 = none ↔ hdr.getD 5 0 = 0x60) ∧
        (hdr.getD 5 0 ≠ 0x60 →
          check_header hdr 11 = some .unsupportedWriterBuild))) ∧
    (hdr.getD 3 0 = 0xCC → check_header hdr 11 = none) := by
  have hq0 := getD_lt_256 hdr 0 hb
  have hq1 := getD_lt_256 hdr 1 hb
  have hR0 : AV_RB16 hdr 0 = hdr.getD 0 0 * 256 + hdr.getD 1 0 := by
    unfold AV_RB16
    norm_num
  have hR6 : AV_RB16 hdr 6 = hdr.getD 6 0 * 256 + hdr.getD 7 0 := by
    unfold AV_RB16
    norm_num
  have hc1n : ¬ ((11:Nat) ≠ 11 ∨ AV_RB16 hdr 0 ≠ 0xCCCC ∨
      hdr.getD 2 0 ≠ 0xED) := by
    rw [hR0]
    omega
  have hc3n : ¬ (AV_RB16 hdr 6 ≠ 0x0001) := by
    rw [hR6]
    omega
  constructor
  · intro h3
    have hc2n : ¬ ((hdr.getD 3 0 ≠ 0xCC ∧ hdr.getD 3 0 ≠ 0xFF) ∨
        hdr.getD 4 0 ≠ 0x00) := by
      omega
    have hsome : hdr.getD 5 0 ≠ 0x60 →
        check_header hdr 11 = some DemuxError.unsupportedWriterBuild := by
      intro h5
      unfold check_header
      rw [if_neg hc1n, if_neg hc2n, if_neg hc3n, if_pos ⟨h3, h5⟩]
    refine ⟨⟨?_, ?_⟩, hsome⟩
    · intro hnone
      by_contra h5
      rw [hsome h5] at hnone
      exact Option.noConfusion hnone
    · intro h5
      unfold check_header
      rw [if_neg hc1n, if_neg hc2n, if_neg hc3n,
        if_neg (show ¬ (hdr.getD 3 0 = 0xFF ∧ hdr.getD 5 0 ≠ 0x60) by omega)]
  · intro h3
    have hc2n : ¬ ((hdr.getD 3 0 ≠ 0xCC ∧ hdr.getD 3 0 ≠ 0xFF) ∨
        hdr.getD 4 0 ≠ 0x00) := by
      omega
    unfold check_header
    rw [if_neg hc1n, if_neg hc2n, if_neg hc3n,
      if_neg (show ¬ (hdr.getD 3 0 = 0xFF ∧ hdr.getD 5 0 ≠ 0x60) by omega)]

/-- Witness for C4: writer id 0xCC passes validation with an arbitrary
nonzero subversion byte that would fail under writer id 0xFF. -/
theorem c4_subversion_check_witness :
    check_header [0xCC, 0xCC, 0xED, 0xCC, 0x00, 0x77, 0x00, 0x01, 0x00, 0x00,
        0x00] 11 = none :=
  (c4_subversion_check _ (by decide) (by decide) (by decide) (by decide)
    (by decide) (by decide) (by decide) (by decide)).2 (by decide)

/-- C6: the probe returns 50 exactly on buffers of at least 12 bytes
starting with the magic bytes 0xCC 0xCC 0xED, and 0 in every other case,
in particular on every buffer of 11 bytes or fewer. -/
theorem c6_probe_score (buf : List Nat) (hb : ∀ b ∈ buf, b < 256) :
    (rcwt_probe buf = 50 ↔
      (12 ≤ buf.length ∧ buf.getD 0 0 = 0xCC ∧ buf.getD 1 0 = 0xCC ∧
        buf.getD 2 0 = 0xED)) ∧
    (rcwt_probe buf = 50 ∨ rcwt_probe buf = 0) ∧
    (buf.length ≤ 11 → rcwt_probe buf = 0) := by
  have h0 := getD_lt_256 buf 0 hb
  have h1 := getD_lt_256 buf 1 hb
  have hR : AV_RB16 buf 0 = buf.getD 0 0 * 256 + buf.getD 1 0 := by
    unfold AV_RB16
    norm_num
  by_cases hc : buf.length > 11 ∧ AV_RB16 buf 0 = 0xCCCC ∧ buf.getD 2 0 = 0xED
  · have hp : rcwt_probe buf = 50 := by
      unfold rcwt_probe
      rw [if_pos hc]
    obtain ⟨ha, hbb, hcc⟩ := hc
    rw [hR] at hbb
    rw [hp]
    exact ⟨⟨fun _ => ⟨by omega, by omega, by omega, hcc⟩, fun _ => rfl⟩,
      Or.inl rfl, fun hl => by omega⟩
  · have hp : rcwt_probe buf = 0 := by
      unfold rcwt_probe
      rw [if_neg hc]
    rw [hp]
    refine ⟨⟨fun h50 => absurd h50 (by norm_num), fun hcond => ?_⟩,
      Or.inr rfl, fun _ => rfl⟩
    exact absurd ⟨by omega, by rw [hR]; omega, hcond.2.2.2⟩ hc

/-- Witness for C6 on a 12-byte buffer with the magic bytes: score 50. -/
theorem c6_probe_score_witness :
    rcwt_probe [0xCC, 0xCC, 0xED, 0, 0, 0, 0, 0, 0, 0, 0, 0] = 50 :=
  ((c6_probe_score _ (by decide)).1).2 (by decide)

/-- C10 counterexample: a valid header followed by exactly 9 bytes of a
cluster prefix whose ninth byte is 1. The claim says such a read ends
successfully with block_count reading as 0; the code instead reads
block_count 1 from the real low byte and fails with the
truncated-cluster error. -/
theorem c10_counterexample :
    rcwt_read_header (sampleHeader ++ [0, 0, 0, 0, 0, 0, 0, 0, 1])
      = ⟨[rcwtStream], [], 1, some (.truncatedCluster 3 0 20)⟩ := by decide

/-- C10 as amended: when the stream ends 1 to 9 bytes into a cluster
prefix at a cluster boundary, the read ends successfully exactly when
the low block-count byte that the padded reads return is zero, which is
always the case with at most 8 bytes remaining and holds for 9 remaining
bytes exactly when the ninth is zero; with 9 bytes remaining and a
nonzero ninth byte the block count reads back nonzero and the read
fails with the truncated-cluster error. -/
theorem c10_short_prefix_amended (hdr extra : List Nat)
    (rs : List ClusterRec)
    (hlen : hdr.length = 11) (hok : check_header hdr 11 = none)
    (hv : ∀ r ∈ rs, r.valid)
    (hex1 : 1 ≤ extra.length) (hex10 : extra.length < 10) :
    (extra.getD 8 0 = 0 →
      rcwt_read_header (hdr ++ clusters_bytes rs ++ extra)
        = ⟨[rcwtStream], expected_packets hdr.length rs, rs.length, none⟩) ∧
    (extra.getD 8 0 ≠ 0 →
      rcwt_read_header (hdr ++ clusters_bytes rs ++ extra)
        = ⟨[rcwtStream], expected_packets hdr.length rs, rs.length + 1,
          some (.truncatedCluster (extra.getD 8 0 * 3) 0
            (hdr.length + (clusters_bytes rs).length + 9))⟩) := by
  rw [rcwt_with_clusters hdr extra rs hlen hok hv]
  constructor
  · intro hz
    by_cases h9 : extra.length ≤ 8
    · rw [demux_loop_tail_short _ _ _ _ (by simp)
        (by simp only [List.length_append]; omega)]
    · have hex9 : extra.length = 9 := by omega
      have hsplit : extra = extra.take 8 ++ [0] := by
        rw [← hz]
        exact take8_getD8 extra hex9
      rw [hsplit]
      have hgrp : hdr ++ clusters_bytes rs ++ (extra.take 8 ++ [0])
          = (hdr ++ clusters_bytes rs) ++ extra.take 8 ++ [0] := by
        simp [List.append_assoc]
      rw [hgrp]
      rw [demux_loop_tail_nine_zero (hdr ++ clusters_bytes rs) (extra.take 8)
        _ _ (by simp [List.length_take]; omega)]
  · intro hnz
    have hex9 : extra.length = 9 := by
      by_contra h9
      have hz : extra.getD 8 0 = 0 := by
        simp only [List.getD,
          List.get?_eq_none.2 (by omega : extra.length ≤ 8), Option.getD_none]
      exact hnz hz
    have hsplit : extra = extra.take 8 ++ [extra.getD 8 0] :=
      take8_getD8 extra hex9
    have hgrp : hdr ++ clusters_bytes rs ++ (extra.take 8 ++ [extra.getD 8 0])
        = (hdr ++ clusters_bytes rs) ++ extra.take 8 ++ [extra.getD 8 0] := by
      simp [List.append_assoc]
    conv_lhs => rw [hsplit, hgrp]
    rw [demux_loop_trunc_count (hdr ++ clusters_bytes rs) (extra.take 8)
      (extra.getD 8 0) _ _ (by simp [List.length_take]; omega) hnz]
    simp [List.length_append]

/-- Witness for the amended C10: 3 leftover bytes after a valid header
terminate the read cleanly with no packet. -/
theorem c10_short_prefix_amended_witness :
    rcwt_read_header (sampleHeader ++ clusters_bytes [] ++ [0, 0, 0])
      = ⟨[rcwtStream], expected_packets sampleHeader.length [], 0, none⟩ :=
  (c10_short_prefix_amended sampleHeader [0, 0, 0] [] (by decide) (by decide)
    (by decide) (by decide) (by decide)).1 (by decide)

end RCWT
